import Mathlib

/-!
Verification of the solar-optimization MCDA backend.

The definitions below are a shallow embedding of the per-pixel semantics of
`backend/workers/geoprocessing/mcda_engine.py` (normalization, constraint
mask, weighted overlay, statistics), of the admission path in
`backend/api/services/analysis_service.py` (`create_and_queue_job`), and of
the worker task in `backend/workers/tasks.py` (`run_mcda_analysis`).
Raster arrays are modelled per pixel: every NumPy array operation used by the
engine is element-wise, so a pixel is a record of the co-registered layer
values at that location and a grid is a list of pixels.  Machine floats are
modelled by exact rationals.
-/

namespace SolarOpt

/-- The engine's no-data sentinel: `nodata_val = -9999` in `process_mcda_job`
(step 7) and the output raster's `nodata` metadata value. -/
def nodata : ℚ := -9999

/-- `np.clip(x, lo, hi)`, which NumPy documents as
`min(hi, max(x, lo))` element-wise. -/
def npClip (x lo hi : ℚ) : ℚ := min hi (max x lo)

/-- `normalize_array` from `mcda_engine.py` (per pixel): clip to
`[min_val, max_val]`, scale to `[0, 1]`, flip when `invert`, scale by 100.
The function performs no no-data handling: the cast to float and the clip are
applied to every value, sentinel or not. -/
def normalize_array (x min_val max_val : ℚ) (invert : Bool) : ℚ :=
  let clipped := npClip x min_val max_val
  let norm := (clipped - min_val) / (max_val - min_val)
  let norm2 := if invert then 1 - norm else norm
  norm2 * 100

/-- The values of all source layers at one pixel of the analysis grid
(the arrays `ghi_data`, `slope_data`, `grid_dist_data`, `road_dist_data`,
`lulc_data` after clipping to the AOI, read at the same index). -/
structure PixelInputs where
  ghi : ℚ
  slope : ℚ
  grid_dist : ℚ
  road_dist : ℚ
  lulc : ℚ
  deriving DecidableEq

/-- The job's `constraints_json` mapping: each recognized key is optional,
mirroring the `if "slope_gt" in constraints:` tests in step 4 of
`process_mcda_job`. -/
structure Constraints where
  slope_gt : Option ℚ
  lulc_exclude : Option (List ℚ)
  grid_dist_gt : Option ℚ
  deriving DecidableEq

/-- Step 4 of `process_mcda_job` (per pixel): the boolean exclusion mask.
Starts all-False (`np.zeros(..., dtype=bool)`) and ORs in
`slope_data > slope_gt`, `np.isin(lulc_data, lulc_exclude)` and
`grid_dist_data > grid_dist_gt` for whichever keys are present. -/
def constraint_mask (c : Constraints) (p : PixelInputs) : Bool :=
  (match c.slope_gt with
   | some v => decide (p.slope > v)
   | none => false)
  || (match c.lulc_exclude with
      | some L => L.any (fun cls => decide (p.lulc = cls))
      | none => false)
  || (match c.grid_dist_gt with
      | some v => decide (p.grid_dist > v)
      | none => false)

/-- The job's `weights_json`: a JSON object, i.e. a finite string-keyed
mapping, modelled as an association list. -/
abbrev Weights := List (String × ℚ)

/-- `name in weights` (Python dict key membership). -/
def hasKey (w : Weights) (k : String) : Bool := w.any (fun kv => decide (kv.1 = k))

/-- Dict lookup: the value stored under `k`, if present. -/
def lookupQ (k : String) : Weights → Option ℚ
  | [] => none
  | kv :: rest => if kv.1 = k then some kv.2 else lookupQ k rest

/-- Step 5 of `process_mcda_job` (per pixel): `normalized_layers`, built by
testing each recognized factor name for membership in `weights` and
normalizing the corresponding source layer with the engine's hard-coded clip
bounds and invert flags: ghi (1000, 2500, False); slope (0, 10, True);
grid_dist (0, 10000, True); road_dist (0, 5000, True). -/
def normalized_layers (w : Weights) (p : PixelInputs) : Weights :=
  (if hasKey w "ghi" then [("ghi", normalize_array p.ghi 1000 2500 false)] else [])
  ++ (if hasKey w "slope" then [("slope", normalize_array p.slope 0 10 true)] else [])
  ++ (if hasKey w "grid_dist" then [("grid_dist", normalize_array p.grid_dist 0 10000 true)] else [])
  ++ (if hasKey w "road_dist" then [("road_dist", normalize_array p.road_dist 0 5000 true)] else [])

/-- Step 6 of `process_mcda_job` (per pixel): the weighted overlay loop
`for layer_name, weight in weights.items(): if layer_name in normalized_layers:
final_map += normalized_layers[layer_name] * (weight / 100.0)`, starting from
`np.zeros(...)`. -/
def weighted_overlay (w : Weights) (norm : Weights) : ℚ :=
  w.foldl (fun acc kv =>
    match lookupQ kv.1 norm with
    | some n => acc + n * (kv.2 / 100)
    | none => acc) 0

/-- Steps 6-7 of `process_mcda_job` (per pixel): the overlay sum, then the
constraint mask overwrites masked pixels with `nodata_val = -9999`
(`final_map[constraint_mask] = nodata_val`).  Per pixel the overwrite is this
conditional: the else-branch is the summed score, untouched by the mask. -/
def final_score (w : Weights) (c : Constraints) (p : PixelInputs) : ℚ :=
  if constraint_mask c p then nodata else weighted_overlay w (normalized_layers w p)

/-- The output raster `final_map` over the whole analysis grid. -/
def final_map (w : Weights) (c : Constraints) (grid : List PixelInputs) : List ℚ :=
  grid.map (final_score w c)

/-- Step 9 of `process_mcda_job`: `valid_data = final_map[final_map != nodata_val]`,
the array the mean/max/min/std statistics are computed over. -/
def valid_data (w : Weights) (c : Constraints) (grid : List PixelInputs) : List ℚ :=
  (final_map w c grid).filter (fun x => decide (x ≠ nodata))

/-- `statistics["total_pixels"] = int(ghi_data.size)`: the analysis grid size. -/
def total_pixels (grid : List PixelInputs) : ℕ := grid.length

/-- `statistics["valid_pixels"] = int(valid_data.size)`. -/
def valid_pixels (w : Weights) (c : Constraints) (grid : List PixelInputs) : ℕ :=
  (valid_data w c grid).length

/-- `statistics["excluded_pixels"] = int(np.sum(constraint_mask))`. -/
def excluded_pixels (c : Constraints) (grid : List PixelInputs) : ℕ :=
  (grid.filter (fun p => constraint_mask c p)).length

/-- Job status enum from `models/project.py`. -/
inductive JobStatus
  | PENDING
  | RUNNING
  | COMPLETE
  | FAILED
  deriving DecidableEq

/-- An `AnalysisJob` row as created by the admission path: the fields
`create_and_queue_job` sets. -/
structure StoredJob where
  project_id : ℕ
  aoi_id : ℕ
  status : JobStatus
  weights_json : Weights
  deriving DecidableEq

/-- `sum(data.weights_json.values())` in `create_and_queue_job`. -/
def total_weight (w : Weights) : ℚ := (w.map Prod.snd).sum

/-- `create_and_queue_job` from `analysis_service.py`: raise `ValueError`
when `abs(total_weight - 100) > 0.01`, otherwise append a new job row with
`status=JobStatus.PENDING` to the store and commit.  The job store is the
list of committed rows; the error branch returns before any row is added. -/
def create_and_queue_job (db : List StoredJob) (project_id aoi_id : ℕ) (w : Weights) :
    Except String (List StoredJob) :=
  if |total_weight w - 100| > 1 / 100 then
    Except.error "Weights must sum to 100"
  else
    Except.ok (db ++ [⟨project_id, aoi_id, JobStatus.PENDING, w⟩])

/-- A job row as seen by the worker task: id and status. -/
structure TaskJob where
  id : ℕ
  status : JobStatus
  deriving DecidableEq

/-- A committed status update: `job.status = s; db.commit()`. -/
def setStatus (store : List TaskJob) (job_id : ℕ) (s : JobStatus) : List TaskJob :=
  store.map (fun j => if j.id = job_id then ⟨j.id, s⟩ else j)

/-- `run_mcda_analysis` from `tasks.py`: query the job by id; if absent,
return with no commit.  Otherwise set status to RUNNING and commit (with no
test of the current status), run the geoprocessing, and commit COMPLETE on
success or FAILED on exception.  `ok` abstracts whether `process_mcda_job`
raised.  The result is the final store paired with the list of status values
committed for this delivery, in order. -/
def run_mcda_analysis (store : List TaskJob) (job_id : ℕ) (ok : Bool) :
    List TaskJob × List JobStatus :=
  match store.find? (fun j => decide (j.id = job_id)) with
  | none => (store, [])
  | some _ =>
      let afterRunning := setStatus store job_id JobStatus.RUNNING
      let terminal := if ok then JobStatus.COMPLETE else JobStatus.FAILED
      (setStatus afterRunning job_id terminal, [JobStatus.RUNNING, terminal])

/-- The factor names the engine recognizes (the keys tested in step 5 of
`process_mcda_job`; the spec calls this the recognized factor set). -/
def recognized_factors : List String := ["ghi", "slope", "grid_dist", "road_dist"]

/-- The spec's normalization formula, written in the spec's words (section
4.4): clip `A` to `[min, max]`, `t = (A - min) / (max - min)`, `t = 1 - t`
when `invert`, return `100 * t`.  Compared against `normalize_array`. -/
def normalize_spec (x lo hi : ℚ) (invert : Bool) : ℚ :=
  let t := (npClip x lo hi - lo) / (hi - lo)
  100 * (if invert then 1 - t else t)

/-- The spec's overlay contract, written in the spec's words (section 4.6):
the sum, over the factor names present in both the weights mapping and the
normalized-layer set, of `(weight_k / 100) * normalized_k`.  Compared against
`weighted_overlay`. -/
def overlay_spec (w : Weights) (norm : Weights) : ℚ :=
  ((w.filter (fun kv => (lookupQ kv.1 norm).isSome)).map
    (fun kv => kv.2 / 100 * ((lookupQ kv.1 norm).getD 0))).sum

/-! Helper lemmas shared by the claim theorems. -/

theorem weighted_overlay_foldl (norm : Weights) (w : Weights) (acc : ℚ) :
    w.foldl (fun acc kv =>
      match lookupQ kv.1 norm with
      | some n => acc + n * (kv.2 / 100)
      | none => acc) acc = acc + overlay_spec w norm := by
  induction w generalizing acc with
  | nil => simp [overlay_spec]
  | cons kv rest ih =>
      cases h : lookupQ kv.1 norm with
      | none =>
          simp only [List.foldl_cons, h]
          rw [ih]
          simp [overlay_spec, List.filter_cons, h]
      | some n =>
          simp only [List.foldl_cons, h]
          rw [ih]
          simp only [overlay_spec, List.filter_cons, h, Option.isSome_some, if_pos]
          simp [List.map_cons, List.sum_cons, h]
          ring

theorem weighted_overlay_eq (w norm : Weights) :
    weighted_overlay w norm = overlay_spec w norm := by
  simpa [weighted_overlay] using weighted_overlay_foldl norm w 0

theorem normalize_array_bounds (x lo hi : ℚ) (inv : Bool) (h : lo < hi) :
    0 ≤ normalize_array x lo hi inv ∧ normalize_array x lo hi inv ≤ 100 := by
  have hle : lo ≤ hi := le_of_lt h
  have hpos : 0 < hi - lo := by linarith
  have hclip_lo : lo ≤ npClip x lo hi := by
    unfold npClip
    exact le_min hle (le_max_right x lo)
  have hclip_hi : npClip x lo hi ≤ hi := min_le_left _ _
  have ht0 : 0 ≤ (npClip x lo hi - lo) / (hi - lo) :=
    div_nonneg (by linarith) (le_of_lt hpos)
  have ht1 : (npClip x lo hi - lo) / (hi - lo) ≤ 1 := by
    rw [div_le_one hpos]; linarith
  unfold normalize_array
  cases inv <;> simp only [if_true, if_false, Bool.false_eq_true] <;> constructor <;> nlinarith

theorem lookupQ_mem {k : String} {v : ℚ} :
    ∀ {l : Weights}, lookupQ k l = some v → (k, v) ∈ l := by
  intro l
  induction l with
  | nil => simp [lookupQ]
  | cons kv rest ih =>
      intro h
      by_cases hk : kv.1 = k
      · simp only [lookupQ, if_pos hk] at h
        cases h
        have hkv : kv = (k, kv.2) := by
          cases kv
          simp_all
        rw [hkv]
        exact List.mem_cons_self _ _
      · simp only [lookupQ, if_neg hk] at h
        exact List.mem_cons_of_mem _ (ih h)

theorem normalized_layers_bounds (w : Weights) (p : PixelInputs) :
    ∀ kv ∈ normalized_layers w p, 0 ≤ kv.2 ∧ kv.2 ≤ 100 := by
  intro kv hkv
  simp only [normalized_layers, List.mem_append] at hkv
  rcases hkv with ((h | h) | h) | h <;>
  · split at h <;> simp_all only [List.mem_singleton, List.not_mem_nil]
    subst h
    exact normalize_array_bounds _ _ _ _ (by norm_num)

theorem overlay_spec_nonneg (w norm : Weights)
    (hw : ∀ kv ∈ w, 0 ≤ kv.2) (hn : ∀ kv ∈ norm, 0 ≤ kv.2) :
    0 ≤ overlay_spec w norm := by
  induction w with
  | nil => simp [overlay_spec]
  | cons kv rest ih =>
      have hrest : 0 ≤ overlay_spec rest norm :=
        ih (fun x hx => hw x (List.mem_cons_of_mem _ hx))
      cases h : lookupQ kv.1 norm with
      | none =>
          simpa [overlay_spec, List.filter_cons, h] using hrest
      | some n =>
          have hn2 : 0 ≤ n := hn (kv.1, n) (lookupQ_mem h)
          have hk : 0 ≤ kv.2 := hw kv (List.mem_cons_self _ _)
          have hterm : 0 ≤ kv.2 / 100 * n := by positivity
          simp only [overlay_spec, List.filter_cons, h, Option.isSome_some, if_pos,
            List.map_cons, List.sum_cons] at *
          simp only [h, Option.getD_some]
          linarith

theorem overlay_spec_le_total (w norm : Weights)
    (hw : ∀ kv ∈ w, 0 ≤ kv.2) (hn : ∀ kv ∈ norm, kv.2 ≤ 100) :
    overlay_spec w norm ≤ total_weight w := by
  induction w with
  | nil => simp [overlay_spec, total_weight]
  | cons kv rest ih =>
      have hrest : overlay_spec rest norm ≤ total_weight rest :=
        ih (fun x hx => hw x (List.mem_cons_of_mem _ hx))
      have hk : 0 ≤ kv.2 := hw kv (List.mem_cons_self _ _)
      have htot : total_weight (kv :: rest) = kv.2 + total_weight rest := by
        simp [total_weight]
      cases h : lookupQ kv.1 norm with
      | none =>
          rw [htot]
          have hstep : overlay_spec (kv :: rest) norm = overlay_spec rest norm := by
            simp [overlay_spec, List.filter_cons, h]
          rw [hstep]
          linarith
      | some n =>
          have hn2 : n ≤ 100 := hn (kv.1, n) (lookupQ_mem h)
          have hterm : kv.2 / 100 * n ≤ kv.2 := by nlinarith
          have hstep : overlay_spec (kv :: rest) norm =
              kv.2 / 100 * n + overlay_spec rest norm := by
            simp only [overlay_spec, List.filter_cons, h, Option.isSome_some, if_pos,
              List.map_cons, List.sum_cons, Option.getD_some]
          rw [hstep, htot]
          linarith

theorem final_score_bounds (w : Weights) (c : Constraints) (p : PixelInputs)
    (hw : ∀ kv ∈ w, 0 ≤ kv.2) (hmask : constraint_mask c p = false) :
    0 ≤ final_score w c p ∧ final_score w c p ≤ total_weight w := by
  have hnorm := normalized_layers_bounds w p
  have h1 := overlay_spec_nonneg w (normalized_layers w p) hw
    (fun kv hkv => (hnorm kv hkv).1)
  have h2 := overlay_spec_le_total w (normalized_layers w p) hw
    (fun kv hkv => (hnorm kv hkv).2)
  rw [final_score, if_neg (by simp [hmask]), weighted_overlay_eq]
  exact ⟨h1, h2⟩

theorem score_ne_nodata_of_unmasked (w : Weights) (c : Constraints) (p : PixelInputs)
    (hw : ∀ kv ∈ w, 0 ≤ kv.2) (hmask : constraint_mask c p = false) :
    final_score w c p ≠ nodata := by
  intro heq
  have h := (final_score_bounds w c p hw hmask).1
  rw [heq] at h
  norm_num [nodata] at h

/-! The claim theorems. -/

/-- C1: at every pixel of every job, a pixel excluded by the constraint mask
is set to the no-data sentinel -9999 regardless of its summed score, and an
unexcluded pixel's output equals the sum over the factor names present in
both the job's weights and the normalized-layer set of
`(weight_k / 100) * normalized_k`. -/
theorem overlay_sum_and_mask (w : Weights) (c : Constraints) (p : PixelInputs) :
    (constraint_mask c p = true → final_score w c p = nodata)
    ∧ (constraint_mask c p = false →
        final_score w c p = overlay_spec w (normalized_layers w p)) := by
  constructor
  · intro h
    simp [final_score, h]
  · intro h
    simp [final_score, h, weighted_overlay_eq]

/-- Witness for C1 at a concrete job: a masked pixel (slope 15 over the
slope_gt 10 constraint) scores -9999, and an unmasked pixel (slope 5) scores
the weighted sum of its normalized layers. -/
theorem overlay_sum_and_mask_check :
    final_score [("ghi", 40), ("slope", 60)] ⟨some 10, none, none⟩
        ⟨2000, 15, 0, 0, 30⟩ = nodata
    ∧ final_score [("ghi", 40), ("slope", 60)] ⟨some 10, none, none⟩
        ⟨2000, 5, 0, 0, 30⟩ =
      overlay_spec [("ghi", 40), ("slope", 60)]
        (normalized_layers [("ghi", 40), ("slope", 60)] ⟨2000, 5, 0, 0, 30⟩) :=
  ⟨(overlay_sum_and_mask _ _ _).1 (by norm_num [constraint_mask]),
   (overlay_sum_and_mask _ _ _).2 (by norm_num [constraint_mask])⟩

/-- C2 (code bug): `normalize_array` performs no no-data handling — its own
comment says "Replace nodata with NaN for proper handling" but the code only
casts and clips — so a ghi input pixel holding the -9999 sentinel is clipped
to the lower bound 1000 and scored: the normalized value is 0, the final
score of a job weighting only ghi is the numeric value 0, and 0 is not the
no-data sentinel.  The claim (no-data inputs yield no-data outputs) is what
the code's comment and the spec prescribe, and the code does not do it. -/
theorem nodata_input_scored_numeric :
    normalize_array nodata 1000 2500 false = 0
    ∧ final_score [("ghi", 100)] ⟨none, none, none⟩ ⟨nodata, 0, 0, 0, 30⟩ = 0
    ∧ (0 : ℚ) ≠ nodata := by
  refine ⟨by norm_num [normalize_array, npClip, nodata, min_def, max_def], ?_,
    by norm_num [nodata]⟩
  norm_num [final_score, constraint_mask, weighted_overlay, normalized_layers, hasKey,
    lookupQ, normalize_array, npClip, nodata, min_def, max_def]

/-- Counterexample to C3: delivering the id of a job whose status is COMPLETE
is not a no-op — the worker commits RUNNING (and then a terminal status) for
it, because `run_mcda_analysis` assigns RUNNING without testing the current
status.  Here a COMPLETE job is redelivered, the geoprocessing raises, and
the job ends FAILED after a committed RUNNING transition. -/
theorem complete_job_rerun :
    run_mcda_analysis [⟨7, JobStatus.COMPLETE⟩] 7 false =
      ([⟨7, JobStatus.FAILED⟩], [JobStatus.RUNNING, JobStatus.FAILED]) := by
  norm_num [run_mcda_analysis, setStatus, List.find?]

/-- C3 as amended: the worker performs no compare-and-set.  A delivery whose
job id is absent commits nothing, and a delivery that finds the job — in any
current status — always commits RUNNING followed by COMPLETE or FAILED. -/
theorem run_transitions_unconditional (store : List TaskJob) (job_id : ℕ) (ok : Bool) :
    (store.find? (fun j => decide (j.id = job_id)) = none →
      run_mcda_analysis store job_id ok = (store, []))
    ∧ (∀ j, store.find? (fun j => decide (j.id = job_id)) = some j →
        (run_mcda_analysis store job_id ok).2 =
          [JobStatus.RUNNING, if ok then JobStatus.COMPLETE else JobStatus.FAILED]) := by
  constructor
  · intro h
    simp [run_mcda_analysis, h]
  · intro j h
    simp [run_mcda_analysis, h]

/-- Witness for the amended C3: an absent id commits nothing; a FAILED job
that is redelivered and succeeds commits RUNNING then COMPLETE. -/
theorem run_transitions_unconditional_check :
    run_mcda_analysis [] 7 true = ([], [])
    ∧ (run_mcda_analysis [⟨7, JobStatus.FAILED⟩] 7 true).2 =
        [JobStatus.RUNNING, if true then JobStatus.COMPLETE else JobStatus.FAILED] :=
  ⟨(run_transitions_unconditional [] 7 true).1 (by simp [List.find?]),
   (run_transitions_unconditional [⟨7, JobStatus.FAILED⟩] 7 true).2
     ⟨7, JobStatus.FAILED⟩ (by simp [List.find?])⟩

/-- C4: `create_and_queue_job` appends exactly one PENDING job record when
the submitted weights sum to 100 within tolerance 0.01, and raises a
validation error with the job store unchanged (no record created) when the
sum is out of tolerance. -/
theorem create_job_weight_validation (db : List StoredJob) (pid aid : ℕ) (w : Weights) :
    (|total_weight w - 100| ≤ 1 / 100 →
      create_and_queue_job db pid aid w =
        Except.ok (db ++ [⟨pid, aid, JobStatus.PENDING, w⟩]))
    ∧ (1 / 100 < |total_weight w - 100| →
      create_and_queue_job db pid aid w = Except.error "Weights must sum to 100") := by
  constructor
  · intro h
    rw [create_and_queue_job, if_neg (not_lt.mpr h)]
  · intro h
    rw [create_and_queue_job, if_pos h]

/-- Witness for C4: the canonical weights {ghi 40, slope 25, grid_dist 20,
road_dist 15} (sum 100) are admitted and create a PENDING job; weights
summing to 99 are rejected. -/
theorem create_job_weight_validation_check :
    create_and_queue_job [] 1 2
        [("ghi", 40), ("slope", 25), ("grid_dist", 20), ("road_dist", 15)] =
      Except.ok ([] ++ [⟨1, 2, JobStatus.PENDING,
        [("ghi", 40), ("slope", 25), ("grid_dist", 20), ("road_dist", 15)]⟩])
    ∧ create_and_queue_job [] 1 2 [("ghi", 99)] =
        Except.error "Weights must sum to 100" :=
  ⟨(create_job_weight_validation [] 1 2 _).1 (by norm_num [total_weight]),
   (create_job_weight_validation [] 1 2 _).2 (by norm_num [total_weight])⟩

/-- C5: `normalize_array` computes exactly the spec formula
`100 * t` with `t = (clip(A, min, max) - min) / (max - min)`, `t` flipped to
`1 - t` under `invert`; and for bounds (0, 10) with invert the inputs 0, 5,
10 map to 100, 50, 0. -/
theorem normalize_formula_and_inversion :
    (∀ (x lo hi : ℚ) (inv : Bool), lo < hi →
      normalize_array x lo hi inv = normalize_spec x lo hi inv)
    ∧ normalize_array 0 0 10 true = 100
    ∧ normalize_array 5 0 10 true = 50
    ∧ normalize_array 10 0 10 true = 0 := by
  refine ⟨?_, ?_, ?_, ?_⟩
  · intro x lo hi inv _
    cases inv <;> simp [normalize_array, normalize_spec] <;> ring
  all_goals norm_num [normalize_array, normalize_spec, npClip, min_def, max_def]

/-- Witness for C5: the formula identity instantiated at input 3 with the
satisfiable bounds 0 < 10. -/
theorem normalize_formula_and_inversion_check :
    normalize_array 3 0 10 false = normalize_spec 3 0 10 false :=
  normalize_formula_and_inversion.1 3 0 10 false (by norm_num)

/-- C6: for a job whose weights are non-negative and sum to 100 (the engine's
clip bounds all satisfy max > min), every pixel not excluded by the
constraint mask scores in [0, 100]. -/
theorem score_in_range (w : Weights) (c : Constraints) (p : PixelInputs)
    (hw : ∀ kv ∈ w, 0 ≤ kv.2) (hsum : total_weight w = 100)
    (hmask : constraint_mask c p = false) :
    0 ≤ final_score w c p ∧ final_score w c p ≤ 100 := by
  have h := final_score_bounds w c p hw hmask
  rw [hsum] at h
  exact h

/-- Witness for C6 at the canonical weights and an unmasked pixel. -/
theorem score_in_range_check :
    0 ≤ final_score [("ghi", 40), ("slope", 25), ("grid_dist", 20), ("road_dist", 15)]
        ⟨some 10, some [50, 80], some 10000⟩ ⟨2000, 5, 3000, 1000, 30⟩
    ∧ final_score [("ghi", 40), ("slope", 25), ("grid_dist", 20), ("road_dist", 15)]
        ⟨some 10, some [50, 80], some 10000⟩ ⟨2000, 5, 3000, 1000, 30⟩ ≤ 100 :=
  score_in_range _ _ _ (by norm_num) (by norm_num [total_weight])
    (by norm_num [constraint_mask])

/-- Counterexample to C7: a pixel whose slope layer holds the -9999 no-data
sentinel is NOT marked excluded by a declared `slope_gt 10` constraint
(-9999 > 10 is false), and it goes on to receive a numeric score. -/
theorem nodata_slope_not_excluded :
    constraint_mask ⟨some 10, none, none⟩ ⟨2000, nodata, 0, 0, 30⟩ = false
    ∧ final_score [("ghi", 100)] ⟨some 10, none, none⟩ ⟨2000, nodata, 0, 0, 30⟩ ≠ nodata := by
  constructor
  · norm_num [constraint_mask, nodata]
  · norm_num [final_score, constraint_mask, weighted_overlay, normalized_layers, hasKey,
      lookupQ, normalize_array, npClip, nodata, min_def, max_def]

/-- C7 as amended: a pixel that is no-data in a constraint's input layer is
excluded only when the sentinel value itself satisfies the constraint's
predicate — `slope_gt v` and `grid_dist_gt g` with thresholds ≥ -9999 never
exclude it, and `lulc_exclude L` excludes it exactly when -9999 is listed in
`L`. -/
theorem nodata_excluded_iff_sentinel_predicate (v g : ℚ) (L : List ℚ) (p : PixelInputs)
    (hs : p.slope = nodata) (hl : p.lulc = nodata) (hg : p.grid_dist = nodata)
    (hv : nodata ≤ v) (hgv : nodata ≤ g) :
    constraint_mask ⟨some v, some L, some g⟩ p =
      L.any (fun cls => decide (nodata = cls)) := by
  have h1 : ¬ (v < nodata) := not_lt.mpr hv
  have h2 : ¬ (g < nodata) := not_lt.mpr hgv
  simp [constraint_mask, hs, hl, hg, gt_iff_lt, h1, h2]

/-- Witness for the amended C7: a pixel that is no-data in all three
constraint layers, under slope_gt 10, lulc_exclude [50, 80] and
grid_dist_gt 10000, is excluded exactly as -9999's membership in [50, 80]
dictates (i.e. not at all). -/
theorem nodata_excluded_iff_sentinel_check :
    constraint_mask ⟨some 10, some [50, 80], some 10000⟩ ⟨0, nodata, nodata, 0, nodata⟩ =
      [(50 : ℚ), 80].any (fun cls => decide (nodata = cls)) :=
  nodata_excluded_iff_sentinel_predicate 10 10000 [50, 80] _ rfl rfl rfl
    (by norm_num [nodata]) (by norm_num [nodata])

/-- Counterexample to C8: "bogus" is outside the recognized factor set, yet a
job whose weights mapping is exactly {"bogus": 100} is admitted — a PENDING
job record is created, not a rejection. -/
theorem unknown_factor_admitted :
    "bogus" ∉ recognized_factors
    ∧ create_and_queue_job [] 1 1 [("bogus", 100)] =
        Except.ok [⟨1, 1, JobStatus.PENDING, [("bogus", 100)]⟩] := by
  constructor
  · decide
  · norm_num [create_and_queue_job, total_weight]

/-- C8 as amended: admission validates only the weight sum.  Even when the
weights mapping contains a factor name outside the recognized set, a weight
sum within 100 ± 0.01 is admitted and a PENDING job record is created. -/
theorem admission_checks_sum_only (db : List StoredJob) (pid aid : ℕ) (w : Weights)
    (k : String) ( _hk : hasKey w k = true) ( _hunk : k ∉ recognized_factors)
    (hsum : |total_weight w - 100| ≤ 1 / 100) :
    create_and_queue_job db pid aid w =
      Except.ok (db ++ [⟨pid, aid, JobStatus.PENDING, w⟩]) := by
  rw [create_and_queue_job, if_neg (not_lt.mpr hsum)]

/-- Witness for the amended C8: weights {"mystery": 60, "ghi": 40} contain
the unrecognized name "mystery", sum to 100, and are admitted. -/
theorem admission_checks_sum_only_check :
    create_and_queue_job [] 3 4 [("mystery", 60), ("ghi", 40)] =
      Except.ok ([] ++ [⟨3, 4, JobStatus.PENDING, [("mystery", 60), ("ghi", 40)]⟩]) :=
  admission_checks_sum_only [] 3 4 _ "mystery" (by simp [hasKey]) (by decide)
    (by norm_num [total_weight])

/-- C9: for x in [0, 100], normalizing twice with bounds (0, 100) and
invert=False returns x. -/
theorem normalize_idempotent_on_range (x : ℚ) (h0 : 0 ≤ x) (h1 : x ≤ 100) :
    normalize_array (normalize_array x 0 100 false) 0 100 false = x := by
  have key : ∀ y : ℚ, 0 ≤ y → y ≤ 100 → normalize_array y 0 100 false = y := by
    intro y hy0 hy1
    simp only [normalize_array, npClip, max_eq_left hy0, min_eq_right hy1,
      Bool.false_eq_true, if_false]
    norm_num
  rw [key x h0 h1, key x h0 h1]

/-- Witness for C9 at x = 42. -/
theorem normalize_idempotent_check :
    normalize_array (normalize_array 42 0 100 false) 0 100 false = 42 :=
  normalize_idempotent_on_range 42 (by norm_num) (by norm_num)

/-- C10: for a job with non-negative weights summing to at most 100 (all
values in the rational model are finite, and the engine's clip bounds all
satisfy max > min), the statistics satisfy
`valid_pixels + excluded_pixels = total_pixels`; and validity is judged
solely by the score differing from -9999, so every unmasked pixel — even one
whose source layers hold the -9999 sentinel — lands in the `valid_data`
array over which the mean, min, max and standard deviation are computed. -/
theorem stats_pixel_partition (w : Weights) (c : Constraints) (grid : List PixelInputs)
    (hw : ∀ kv ∈ w, 0 ≤ kv.2) ( _hsum : total_weight w ≤ 100) :
    valid_pixels w c grid + excluded_pixels c grid = total_pixels grid
    ∧ ∀ p ∈ grid, constraint_mask c p = false →
        final_score w c p ∈ valid_data w c grid := by
  constructor
  · induction grid with
    | nil => simp [valid_pixels, valid_data, final_map, excluded_pixels, total_pixels]
    | cons p g ih =>
        cases hm : constraint_mask c p with
        | true =>
            have hs : final_score w c p = nodata := by simp [final_score, hm]
            simp only [valid_pixels, valid_data, final_map, excluded_pixels, total_pixels,
              List.map_cons, List.filter_cons, hm, hs, List.length_cons] at ih ⊢
            simp only [ne_eq, not_true_eq_false, decide_False, Bool.false_eq_true, if_false,
              if_true, List.length_cons] at ih ⊢
            omega
        | false =>
            have hs := score_ne_nodata_of_unmasked w c p hw hm
            simp only [valid_pixels, valid_data, final_map, excluded_pixels, total_pixels,
              List.map_cons, List.filter_cons, hm, List.length_cons] at ih ⊢
            simp only [ne_eq, hs, not_false_eq_true, decide_True, if_true,
              Bool.false_eq_true, if_false, List.length_cons] at ih ⊢
            omega
  · intro p hp hm
    have hmem : final_score w c p ∈ final_map w c grid := List.mem_map_of_mem _ hp
    rw [valid_data, List.mem_filter]
    exact ⟨hmem, by simpa using score_ne_nodata_of_unmasked w c p hw hm⟩

/-- Witness for C10: a two-pixel grid under weights {ghi: 100} and a
slope_gt 10 constraint; one pixel is masked, one is valid, the counts
partition, and the valid pixel's score enters the statistics array. -/
theorem stats_pixel_partition_check :
    valid_pixels [("ghi", 100)] ⟨some 10, none, none⟩
        [⟨2000, 15, 0, 0, 30⟩, ⟨2000, 5, 0, 0, 30⟩]
      + excluded_pixels ⟨some 10, none, none⟩
        [⟨2000, 15, 0, 0, 30⟩, ⟨2000, 5, 0, 0, 30⟩]
      = total_pixels [⟨2000, 15, 0, 0, 30⟩, ⟨2000, 5, 0, 0, 30⟩]
    ∧ final_score [("ghi", 100)] ⟨some 10, none, none⟩ ⟨2000, 5, 0, 0, 30⟩ ∈
        valid_data [("ghi", 100)] ⟨some 10, none, none⟩
          [⟨2000, 15, 0, 0, 30⟩, ⟨2000, 5, 0, 0, 30⟩] :=
  ⟨(stats_pixel_partition _ _ _ (by norm_num) (by norm_num [total_weight])).1,
   (stats_pixel_partition _ _ _ (by norm_num) (by norm_num [total_weight])).2
     _ (by simp) (by norm_num [constraint_mask])⟩

end SolarOpt
